import Mathlib

/-!
Concurrent fetch: fan-out / fan-in over a buffered channel and a wait group.

A shallow embedding of `src/Go/concurrent_fetch.go`.

* The three `DataFetcher` implementations are pure functions of the values
  drawn from the random source (`rand.Intn(500)` for the delay and, for the
  product fetcher, `rand.Intn(10)` for the failure).
* The buffered channel and the `sync.WaitGroup` are explicit data with their
  blocking and panicking behaviour.
* `main` and the goroutines running `fetchAndSend` are program counters in a
  global state; a schedule is a list of actions, each one letting the main
  flow or one goroutine perform its next atomic operation.
-/

namespace ConcurrentFetch

/-! ## Data model -/

/-- The values one call of `Fetch` draws from the random source:
`delay` is the result of `rand.Intn(500)`, `fail` the result of `rand.Intn(10)`
(only the product fetcher draws the second one). -/
structure Draws where
  delay : Nat
  fail : Nat
deriving DecidableEq

/-- What one call of `Fetch` does: the duration passed to `time.Sleep`
(in nanoseconds, the unit of `time.Duration`) and the two returned values.
A Go `error` is `none` for `nil` and `some msg` for an error whose message
is `msg`. -/
structure FetchRun where
  slept : Nat
  data : String
  err : Option String
deriving DecidableEq

/-- The interface `DataFetcher`: any implementer supplies the two methods. -/
structure DataFetcher where
  Fetch : Draws → FetchRun
  GetSourceName : String

/-- The constant `time.Millisecond`, in nanoseconds. -/
def Millisecond : Nat := 1000000

/-- The argument of `time.Sleep` in all three fetchers:
`time.Duration(rand.Intn(500)+500) * time.Millisecond`. -/
def sleepDuration (r : Nat) : Nat := (r + 500) * Millisecond

/-- The method `(*UserFetcher).Fetch`. -/
def UserFetcher.Fetch (d : Draws) : FetchRun :=
  { slept := sleepDuration d.delay
    data := "User data fetched successfully."
    err := none }

/-- The method `(*UserFetcher).GetSourceName`. -/
def UserFetcher.GetSourceName : String := "User Service"

/-- The method `(*ProductFetcher).Fetch`. -/
def ProductFetcher.Fetch (d : Draws) : FetchRun :=
  if d.fail < 2 then
    { slept := sleepDuration d.delay
      data := ""
      err := some "failed to fetch product data" }
  else
    { slept := sleepDuration d.delay
      data := "Product data fetched successfully."
      err := none }

/-- The method `(*ProductFetcher).GetSourceName`. -/
def ProductFetcher.GetSourceName : String := "Product Service"

/-- The method `(*OrderFetcher).Fetch`. -/
def OrderFetcher.Fetch (d : Draws) : FetchRun :=
  { slept := sleepDuration d.delay
    data := "Order data fetched successfully."
    err := none }

/-- The method `(*OrderFetcher).GetSourceName`. -/
def OrderFetcher.GetSourceName : String := "Order Service"

/-- The value `&UserFetcher{}` seen through the interface. -/
def UserFetcher : DataFetcher := ⟨UserFetcher.Fetch, UserFetcher.GetSourceName⟩

/-- The value `&ProductFetcher{}` seen through the interface. -/
def ProductFetcher : DataFetcher := ⟨ProductFetcher.Fetch, ProductFetcher.GetSourceName⟩

/-- The value `&OrderFetcher{}` seen through the interface. -/
def OrderFetcher : DataFetcher := ⟨OrderFetcher.Fetch, OrderFetcher.GetSourceName⟩

/-- The slice `fetchers` built in `main`. -/
def fetchers : List DataFetcher := [UserFetcher, ProductFetcher, OrderFetcher]

/-- The struct `FetchResult`. -/
structure FetchResult where
  Source : String
  Data : String
  Error : Option String
deriving DecidableEq

/-! ## The buffered channel -/

/-- A buffered channel of `FetchResult`: queued values (oldest first),
capacity, and whether it has been closed. -/
structure Chan where
  buf : List FetchResult
  cap : Nat
  closed : Bool
deriving DecidableEq

/-- The outcome of a send `ch <- v`. -/
inductive SendOutcome
  | ok (c : Chan)
  | blocked
  | panics
deriving DecidableEq

/-- The outcome of a receive, as performed by `for result := range ch`. -/
inductive RecvOutcome
  | value (v : FetchResult) (c : Chan)
  | finished
  | blocked
deriving DecidableEq

/-- The expression `make(chan FetchResult, n)`. -/
def Chan.make (n : Nat) : Chan := { buf := [], cap := n, closed := false }

/-- The statement `ch <- v`: panics on a closed channel, blocks while the
buffer is full, otherwise queues the value behind the others. -/
def Chan.send (c : Chan) (v : FetchResult) : SendOutcome :=
  if c.closed then .panics
  else if c.buf.length < c.cap then .ok { c with buf := c.buf ++ [v] }
  else .blocked

/-- One receive of a `range` loop: the oldest queued value if there is one,
the end of the loop if the channel is empty and closed, blocking if it is
empty and still open. -/
def Chan.recv (c : Chan) : RecvOutcome :=
  match c.buf with
  | v :: rest => .value v { c with buf := rest }
  | [] => if c.closed then .finished else .blocked

/-- The call `close(ch)`: `none` is the panic on an already closed channel. -/
def Chan.close (c : Chan) : Option Chan :=
  if c.closed then none else some { c with closed := true }

/-- The loop `for result := range ch` run for at most `fuel` receives: the
values received in order and the channel left behind; `none` when the loop
blocks on an open channel (or the receives run out). -/
def drainLoop : Nat → Chan → Option (List FetchResult × Chan)
  | 0, _ => none
  | fuel + 1, c =>
    match c.recv with
    | .value v c1 =>
      match drainLoop fuel c1 with
      | some (vs, c2) => some (v :: vs, c2)
      | none => none
    | .finished => some ([], c)
    | .blocked => none

/-- The loop `for result := range ch` on a channel nobody else touches: one
receive per queued value and one more that finds the channel exhausted. -/
def drain (c : Chan) : Option (List FetchResult × Chan) :=
  drainLoop (c.buf.length + 1) c

/-- Two `range` loops over the same channel, one after the other: all the
values received and the channel left behind. -/
def drainTwice (c : Chan) : Option (List FetchResult × Chan) :=
  match drain c with
  | some (vs, c1) =>
    match drain c1 with
    | some (ws, c2) => some (vs ++ ws, c2)
    | none => none
  | none => none

/-! ## Console output -/

/-- The line written by `fmt.Println("=== データの並行取得を開始 ===")`. -/
def startMarker : String := "=== データの並行取得を開始 ===\n"

/-- The line written by `fmt.Println("=== 全ての goroutine が完了 ===")`. -/
def doneMarker : String := "=== 全ての goroutine が完了 ===\n"

/-- The line written by `fmt.Println("=== 処理を終了 ===")`. -/
def endMarker : String := "=== 処理を終了 ===\n"

/-- The text written by `fmt.Printf("❌ %s からのエラー: %v\n", src, err)`. -/
def renderFailure (src msg : String) : String :=
  "❌ " ++ src ++ " からのエラー: " ++ msg ++ "\n"

/-- The text written by `fmt.Printf("✅ %s からの結果: %s\n", src, data)`. -/
def renderSuccess (src data : String) : String :=
  "✅ " ++ src ++ " からの結果: " ++ data ++ "\n"

/-- The body of the reporting loop of `main` for one received `result`. -/
def render (r : FetchResult) : String :=
  match r.Error with
  | some msg => renderFailure r.Source msg
  | none => renderSuccess r.Source r.Data

/-- Everything `main` writes when the reporting loop receives `rs`, one
entry per call of `fmt.Println` / `fmt.Printf`, in the order of the calls. -/
def consoleWrites (rs : List FetchResult) : List String :=
  [startMarker, doneMarker] ++ rs.map render ++ [endMarker]

/-- The number of lines of a text: its line feeds (every write of `main`
ends with one). -/
def lineCount (s : String) : Nat := s.toList.count '\n'

/-- A string without a line feed. -/
def noLineFeed (s : String) : Prop := '\n' ∉ s.toList

/-- The strings of a `FetchResult` that the report prints hold no line feed. -/
def FetchResult.singleLine (r : FetchResult) : Prop :=
  noLineFeed r.Source ∧ noLineFeed r.Data ∧ ∀ msg, r.Error = some msg → noLineFeed msg

/-! ## The concurrent program -/

/-- Where a goroutine running `fetchAndSend` stands: before `fetcher.Fetch()`,
before the send (holding the fetched `data` and `err`), before the deferred
`wg.Done()`, or returned. -/
inductive UnitPc
  | fetch
  | send (data : String) (err : Option String)
  | done
  | exited
deriving DecidableEq

/-- A goroutine started by `go fetchAndSend(fetcher, resultsChannel, &wg)`:
`src` is the position in `fetchers` of the fetcher it was given. -/
structure Goroutine where
  src : Nat
  pc : UnitPc
deriving DecidableEq

/-- Where `main` stands. `loopAdd i` is the head of the spawning loop at
index `i` (before `wg.Add(1)`), `loopGo i` is before the `go` statement of
that iteration, `range` is the head of the reporting loop. -/
inductive MainPc
  | start
  | loopAdd (i : Nat)
  | loopGo (i : Nat)
  | wait
  | close
  | printDone
  | range
  | printEnd
  | exit
deriving DecidableEq

/-- The global state: program counter of `main`, the wait group counter,
the channel, the goroutines in the order they were started, the values the
reporting loop has received so far, the writes to standard output so far,
and whether the program has panicked. -/
structure State where
  main : MainPc
  wg : Nat
  ch : Chan
  units : List Goroutine
  drained : List FetchResult
  out : List String
  panicked : Bool
deriving DecidableEq

/-- An action of the scheduler: let `main` or the `k`-th started goroutine
perform its next operation. -/
inductive Action
  | main
  | unit (k : Nat)
deriving DecidableEq

/-- The state after `make(chan FetchResult, len(fetchers))`, before the
first print. -/
def init (fs : List DataFetcher) : State :=
  { main := .start, wg := 0, ch := Chan.make fs.length, units := [],
    drained := [], out := [], panicked := false }

/-- The next operation of `main`; `none` when `main` is blocked or has
returned. -/
def stepMain (fs : List DataFetcher) (s : State) : Option State :=
  match s.main with
  | .start => some { s with out := s.out ++ [startMarker], main := .loopAdd 0 }
  | .loopAdd i =>
    if i < fs.length then some { s with wg := s.wg + 1, main := .loopGo i }
    else some { s with main := .wait }
  | .loopGo i =>
    some { s with units := s.units ++ [{ src := i, pc := .fetch }], main := .loopAdd (i + 1) }
  | .wait => if s.wg = 0 then some { s with main := .close } else none
  | .close =>
    match s.ch.close with
    | some c => some { s with ch := c, main := .printDone }
    | none => some { s with panicked := true }
  | .printDone => some { s with out := s.out ++ [doneMarker], main := .range }
  | .range =>
    match s.ch.recv with
    | .value r c =>
      some { s with ch := c, drained := s.drained ++ [r], out := s.out ++ [render r] }
    | .finished => some { s with main := .printEnd }
    | .blocked => none
  | .printEnd => some { s with out := s.out ++ [endMarker], main := .exit }
  | .exit => none

/-- The next operation of the `k`-th goroutine, which runs
`fetchAndSend(fs[src], resultsChannel, &wg)`; `env` gives the random draws of
each fetcher's `Fetch`. `none` when there is no such goroutine, it is blocked
or it has returned. -/
def stepUnit (fs : List DataFetcher) (env : Nat → Draws) (s : State) (k : Nat) :
    Option State :=
  match s.units[k]? with
  | none => none
  | some u =>
    match fs[u.src]? with
    | none => none
    | some f =>
      match u.pc with
      | .fetch =>
        let r := f.Fetch (env u.src)
        some { s with units := s.units.set k { u with pc := .send r.data r.err } }
      | .send d e =>
        match s.ch.send { Source := f.GetSourceName, Data := d, Error := e } with
        | .ok c => some { s with ch := c, units := s.units.set k { u with pc := .done } }
        | .blocked => none
        | .panics => some { s with panicked := true }
      | .done =>
        if s.wg = 0 then some { s with panicked := true }
        else some { s with wg := s.wg - 1, units := s.units.set k { u with pc := .exited } }
      | .exited => none

/-- One scheduled operation. Nothing runs after a panic or after `main`
has returned. -/
def step (fs : List DataFetcher) (env : Nat → Draws) (s : State) (a : Action) :
    Option State :=
  if s.panicked = true ∨ s.main = .exit then none
  else
    match a with
    | .main => stepMain fs s
    | .unit k => stepUnit fs env s k

/-- Run a schedule from a state; `none` if some scheduled action is not
enabled when its turn comes. -/
def exec (fs : List DataFetcher) (env : Nat → Draws) : List Action → State → Option State
  | [], s => some s
  | a :: as, s =>
    match step fs env s a with
    | some t => exec fs env as t
    | none => none

/-- The states the program can be in: those some schedule leads to. -/
def Reachable (fs : List DataFetcher) (env : Nat → Draws) (s : State) : Prop :=
  ∃ sched, exec fs env sched (init fs) = some s

/-- The `FetchResult` the goroutine for `fs[i]` sends. -/
def outcome (fs : List DataFetcher) (env : Nat → Draws) (i : Nat) : Option FetchResult :=
  match fs[i]? with
  | some f =>
    some { Source := f.GetSourceName, Data := (f.Fetch (env i)).data,
           Error := (f.Fetch (env i)).err }
  | none => none

/-- The outcomes every source of `fs` sends, in the order of `fs`. -/
def expected (fs : List DataFetcher) (env : Nat → Draws) : List FetchResult :=
  (List.range fs.length).filterMap (outcome fs env)

/-- The outcomes of all sources of `fs` but the one at position `j`. -/
def others (fs : List DataFetcher) (env : Nat → Draws) (j : Nat) : List FetchResult :=
  ((List.range fs.length).erase j).filterMap (outcome fs env)

/-- The schedule in which `main` starts every goroutine, each goroutine then
runs to its end in turn, and `main` finishes. -/
def seqSchedule (n : Nat) : List Action :=
  List.replicate (1 + 2 * n + 1) Action.main
    ++ (List.range n).flatMap (fun k => [Action.unit k, Action.unit k, Action.unit k])
    ++ List.replicate (3 + n + 2) Action.main

/-- The state a schedule leads to from the start (the start itself when the
schedule cannot be run). -/
def runOf (fs : List DataFetcher) (env : Nat → Draws) (sched : List Action) : State :=
  (exec fs env sched (init fs)).getD (init fs)

/-- Draws under which the product fetcher fails: every draw is 0. -/
def failingDraws : Nat → Draws := fun _ => { delay := 0, fail := 0 }

/-- The same draws but for the fetcher at position 1 (the product fetcher in
`fetchers`), whose failure draw is 5: it succeeds. -/
def passingDraws : Nat → Draws := fun i => { delay := 0, fail := if i = 1 then 5 else 0 }

/-- A fetcher outside the repository that returns a payload together with
an error. -/
def partialFetcher : DataFetcher :=
  { Fetch := fun _ => { slept := 0, data := "partial", err := some "boom" }
    GetSourceName := "Partial Service" }

/-- A fetcher outside the repository whose payload spans two lines. -/
def twoLineFetcher : DataFetcher :=
  { Fetch := fun _ => { slept := 0, data := "a\nb", err := none }
    GetSourceName := "Two Line Service" }

/-! ## The invariant -/

/-- Goroutines started once `main` stands at a given place. -/
def spawned (n : Nat) : MainPc → Nat
  | .start => 0
  | .loopAdd i => i
  | .loopGo i => i
  | _ => n

/-- The loop index of `main` stays within the slice. -/
def inBounds (n : Nat) : MainPc → Prop
  | .loopAdd i => i ≤ n
  | .loopGo i => i < n
  | _ => True

/-- One `wg.Add(1)` has been done for a goroutine not started yet. -/
def pendingAdd : MainPc → Nat
  | .loopGo _ => 1
  | _ => 0

/-- Whether `main` has executed `close(resultsChannel)`. -/
def pastClose : MainPc → Bool
  | .printDone | .range | .printEnd | .exit => true
  | _ => false

/-- Whether `wg.Wait()` has returned. -/
def pastWait : MainPc → Bool
  | .close | .printDone | .range | .printEnd | .exit => true
  | _ => false

/-- Whether `main` has reached `wg.Wait()` or gone beyond it. -/
def atOrPastWait : MainPc → Bool
  | .wait | .close | .printDone | .range | .printEnd | .exit => true
  | _ => false

/-- Whether a goroutine has performed its send. -/
def hasSent : UnitPc → Bool
  | .done | .exited => true
  | _ => false

/-- The number of goroutines that have not returned yet. -/
def live (us : List Goroutine) : Nat :=
  us.countP (fun u => decide (u.pc ≠ .exited))

/-- The outcomes sent so far, in the order the goroutines were started. -/
def sentOf (fs : List DataFetcher) (env : Nat → Draws) (us : List Goroutine) :
    List FetchResult :=
  us.filterMap (fun u => if hasSent u.pc then outcome fs env u.src else none)

/-- What has been written and received at each place of `main`. -/
def phaseOk (s : State) : Prop :=
  match s.main with
  | .start => s.out = [] ∧ s.drained = []
  | .loopAdd _ | .loopGo _ | .wait | .close | .printDone =>
    s.out = [startMarker] ∧ s.drained = []
  | .range => s.out = [startMarker, doneMarker] ++ s.drained.map render
  | .printEnd => s.out = [startMarker, doneMarker] ++ s.drained.map render ∧ s.ch.buf = []
  | .exit => s.out = consoleWrites s.drained ∧ s.ch.buf = []

/-- The invariant of the program. -/
structure Inv (fs : List DataFetcher) (env : Nat → Draws) (s : State) : Prop where
  noPanic : s.panicked = false
  cap : s.ch.cap = fs.length
  srcs : s.units.map (fun u => u.src) = List.range (spawned fs.length s.main)
  bound : inBounds fs.length s.main
  count : s.wg = live s.units + pendingAdd s.main
  perm : (s.drained ++ s.ch.buf).Perm (sentOf fs env s.units)
  held : ∀ u ∈ s.units, ∀ d e, u.pc = .send d e → ∀ f, fs[u.src]? = some f →
    d = (f.Fetch (env u.src)).data ∧ e = (f.Fetch (env u.src)).err
  closed : s.ch.closed = pastClose s.main
  quiet : pastWait s.main = true → s.wg = 0
  phase : phaseOk s

/-- The measure that every operation decreases. -/
def unitRank : UnitPc → Nat
  | .fetch => 6
  | .send _ _ => 4
  | .done => 1
  | .exited => 0

/-- The part of the measure owed to `main`. -/
def mainRank (n : Nat) : MainPc → Nat
  | .start => 10 * n + 8
  | .loopAdd i => 10 * (n - i) + 7
  | .loopGo i => 10 * (n - i) + 6
  | .wait => 6
  | .close => 5
  | .printDone => 4
  | .range => 3
  | .printEnd => 2
  | .exit => 1

/-- A number that decreases with every operation of every schedule. -/
def measure (n : Nat) (s : State) : Nat :=
  if s.panicked = true then 0
  else mainRank n s.main + (s.units.map (fun u => unitRank u.pc)).sum + 2 * s.ch.buf.length

/-! ## Lemmas on lists -/

theorem set_split {α : Type} {l : List α} {k : Nat} {u : α} (h : l[k]? = some u) (v : α) :
    ∃ a b, l = a ++ u :: b ∧ l.set k v = a ++ v :: b ∧ a.length = k := by
  induction l generalizing k with
  | nil => simp at h
  | cons x xs ih =>
    cases k with
    | zero =>
      simp at h
      exact ⟨[], xs, by simp [h], by simp, rfl⟩
    | succ k =>
      simp at h
      obtain ⟨a, b, h1, h2, h3⟩ := ih h
      exact ⟨x :: a, b, by simp [h1], by simp [h2], by simp [h3]⟩

theorem range_filterMap_take (fs : List DataFetcher) (env : Nat → Draws) (n : Nat) :
    ((List.range n).filterMap (outcome fs env)).map (fun r => r.Source)
      = (fs.take n).map (fun f => f.GetSourceName) := by
  induction n with
  | zero => simp
  | succ n ih =>
    rw [List.range_succ, List.filterMap_append, List.map_append, ih, List.take_succ,
      List.map_append]
    congr 1
    unfold outcome
    cases h : fs[n]? <;> simp [h]

theorem expected_sources (fs : List DataFetcher) (env : Nat → Draws) :
    (expected fs env).map (fun r => r.Source) = fs.map (fun f => f.GetSourceName) := by
  unfold expected
  rw [range_filterMap_take, List.take_length]

theorem expected_length (fs : List DataFetcher) (env : Nat → Draws) :
    (expected fs env).length = fs.length := by
  have h := congrArg List.length (expected_sources fs env)
  simpa using h

/-! ## The invariant holds in every reachable state -/

theorem inv_init (fs : List DataFetcher) (env : Nat → Draws) : Inv fs env (init fs) := by
  refine ⟨rfl, rfl, ?_, ?_, ?_, ?_, ?_, rfl, ?_, ?_⟩
  · simp [init, spawned]
  · simp [init, inBounds]
  · simp [init, live, pendingAdd]
  · simp [init, sentOf, Chan.make]
  · simp [init]
  · simp [init, pastWait]
  · simp [init, phaseOk]

theorem live_eq_zero {us : List Goroutine} (h : live us = 0) :
    ∀ u ∈ us, u.pc = .exited := by
  intro u hu
  unfold live at h
  rw [List.countP_eq_zero] at h
  have := h u hu
  simpa using this

theorem sentOf_all_exited (fs : List DataFetcher) (env : Nat → Draws) (us : List Goroutine)
    (h : ∀ u ∈ us, u.pc = .exited) :
    sentOf fs env us = (us.map (fun u => u.src)).filterMap (outcome fs env) := by
  unfold sentOf
  rw [List.filterMap_map]
  apply List.filterMap_congr
  intro u hu
  simp [h u hu, hasSent]

theorem stepMain_inv {fs : List DataFetcher} {env : Nat → Draws} {s t : State}
    (hI : Inv fs env s) (h : stepMain fs s = some t) : Inv fs env t := by
  obtain ⟨m, wg, ⟨buf, cap, closed⟩, units, drained, out, panicked⟩ := s
  obtain ⟨h1, h2, h3, h4, h5, h6, h7, h8, h9, h10⟩ := hI
  simp only at h1 h2 h3 h4 h5 h6 h7 h8 h9 h10
  cases m with
  | start =>
    simp only [stepMain, Option.some.injEq] at h
    subst h
    simp only [phaseOk] at h10
    refine ⟨h1, h2, ?_, ?_, ?_, h6, h7, ?_, ?_, ?_⟩
    · simpa [spawned] using h3
    · simp [inBounds]
    · simpa [pendingAdd] using h5
    · simpa [pastClose] using h8
    · simp [pastWait]
    · simp [phaseOk, h10.1, h10.2]
  | loopAdd i =>
    simp only [stepMain] at h
    simp only [phaseOk] at h10
    split at h
    · rename_i hi
      simp only [Option.some.injEq] at h
      subst h
      refine ⟨h1, h2, ?_, ?_, ?_, h6, h7, ?_, ?_, ?_⟩
      · simpa [spawned] using h3
      · simpa [inBounds] using hi
      · simp only [pendingAdd] at h5 ⊢
        omega
      · simpa [pastClose] using h8
      · simp [pastWait]
      · simp [phaseOk, h10.1, h10.2]
    · rename_i hi
      simp only [Option.some.injEq] at h
      subst h
      simp only [inBounds] at h4
      have hi2 : i = fs.length := by omega
      refine ⟨h1, h2, ?_, ?_, ?_, h6, h7, ?_, ?_, ?_⟩
      · simpa [spawned, hi2] using h3
      · simp [inBounds]
      · simpa [pendingAdd] using h5
      · simpa [pastClose] using h8
      · simp [pastWait]
      · simp [phaseOk, h10.1, h10.2]
  | loopGo i =>
    simp only [stepMain, Option.some.injEq] at h
    subst h
    simp only [phaseOk] at h10
    simp only [inBounds] at h4
    refine ⟨h1, h2, ?_, ?_, ?_, ?_, ?_, ?_, ?_, ?_⟩
    · simp only [spawned] at h3 ⊢
      simp [List.range_succ, h3]
    · simp only [inBounds]
      omega
    · simp only [pendingAdd, live] at h5 ⊢
      simp [List.countP_append, h5]
    · simpa [sentOf, hasSent] using h6
    · intro u hu d e hpc
      simp only [List.mem_append, List.mem_singleton] at hu
      rcases hu with hu | hu
      · exact h7 u hu d e hpc
      · subst hu
        simp at hpc
    · simpa [pastClose] using h8
    · simp [pastWait]
    · simp [phaseOk, h10.1, h10.2]
  | wait =>
    simp only [stepMain] at h
    split at h
    · rename_i hw
      simp only [Option.some.injEq] at h
      subst h
      simp only [phaseOk] at h10
      refine ⟨h1, h2, ?_, ?_, ?_, h6, h7, ?_, ?_, ?_⟩
      · simpa [spawned] using h3
      · simp [inBounds]
      · simpa [pendingAdd] using h5
      · simpa [pastClose] using h8
      · intro _
        exact hw
      · simp [phaseOk, h10.1, h10.2]
    · simp at h
  | close =>
    simp only [pastClose] at h8
    subst h8
    simp only [stepMain, Chan.close, Bool.false_eq_true, if_false, Option.some.injEq] at h
    subst h
    simp only [phaseOk] at h10
    refine ⟨h1, h2, ?_, ?_, ?_, h6, h7, ?_, ?_, ?_⟩
    · simpa [spawned] using h3
    · simp [inBounds]
    · simpa [pendingAdd] using h5
    · simp [pastClose]
    · intro _
      exact h9 (by simp [pastWait])
    · simp [phaseOk, h10.1, h10.2]
  | printDone =>
    simp only [stepMain, Option.some.injEq] at h
    subst h
    simp only [phaseOk] at h10
    refine ⟨h1, h2, ?_, ?_, ?_, h6, h7, ?_, ?_, ?_⟩
    · simpa [spawned] using h3
    · simp [inBounds]
    · simpa [pendingAdd] using h5
    · simpa [pastClose] using h8
    · intro _
      exact h9 (by simp [pastWait])
    · simp [phaseOk, h10.1, h10.2]
  | range =>
    simp only [pastClose] at h8
    subst h8
    simp only [phaseOk] at h10
    cases buf with
    | nil =>
      simp only [stepMain, Chan.recv, if_true, Option.some.injEq] at h
      subst h
      refine ⟨h1, h2, ?_, ?_, ?_, h6, h7, ?_, ?_, ?_⟩
      · simpa [spawned] using h3
      · simp [inBounds]
      · simpa [pendingAdd] using h5
      · simp [pastClose]
      · intro _
        exact h9 (by simp [pastWait])
      · simp [phaseOk, h10]
    | cons v rest =>
      simp only [stepMain, Chan.recv, Option.some.injEq] at h
      subst h
      refine ⟨h1, h2, ?_, ?_, ?_, ?_, h7, ?_, ?_, ?_⟩
      · simpa [spawned] using h3
      · simp [inBounds]
      · simpa [pendingAdd] using h5
      · simpa using h6
      · simp [pastClose]
      · intro _
        exact h9 (by simp [pastWait])
      · simp [phaseOk, h10]
  | printEnd =>
    simp only [stepMain, Option.some.injEq] at h
    subst h
    simp only [phaseOk] at h10
    refine ⟨h1, h2, ?_, ?_, ?_, h6, h7, ?_, ?_, ?_⟩
    · simpa [spawned] using h3
    · simp [inBounds]
    · simpa [pendingAdd] using h5
    · simpa [pastClose] using h8
    · intro _
      exact h9 (by simp [pastWait])
    · simp [phaseOk, h10.1, h10.2, consoleWrites]
  | exit => simp [stepMain] at h

theorem live_pos_of_mem {us : List Goroutine} {u : Goroutine} (hu : u ∈ us)
    (hpc : u.pc ≠ .exited) : 0 < live us := by
  unfold live
  rw [List.countP_pos_iff]
  exact ⟨u, hu, by simpa using hpc⟩

theorem pastClose_pastWait {m : MainPc} (h : pastClose m = true) : pastWait m = true := by
  cases m <;> simp_all [pastClose, pastWait]

theorem spawned_le {n : Nat} {m : MainPc} (h : inBounds n m) : spawned n m ≤ n := by
  cases m <;> simp_all [spawned, inBounds]
  omega

theorem sentOf_length_lt {fs : List DataFetcher} {env : Nat → Draws} {a b : List Goroutine}
    {u : Goroutine} (hu : hasSent u.pc = false) :
    (sentOf fs env (a ++ u :: b)).length < (a ++ u :: b).length := by
  unfold sentOf
  simp only [List.filterMap_append, List.filterMap_cons, hu, Bool.false_eq_true, if_false,
    List.length_append, List.length_cons]
  have h1 := List.length_filterMap_le
    (fun u => if hasSent u.pc = true then outcome fs env u.src else none) a
  have h2 := List.length_filterMap_le
    (fun u => if hasSent u.pc = true then outcome fs env u.src else none) b
  omega

theorem stepUnit_inv {fs : List DataFetcher} {env : Nat → Draws} {s t : State} {k : Nat}
    (hI : Inv fs env s) (h : stepUnit fs env s k = some t) : Inv fs env t := by
  obtain ⟨m, wg, ⟨buf, cap, closed⟩, units, drained, out, panicked⟩ := s
  obtain ⟨h1, h2, h3, h4, h5, h6, h7, h8, h9, h10⟩ := hI
  simp only at h1 h2 h3 h4 h5 h6 h7 h8 h9 h10
  simp only [stepUnit] at h
  cases hk : units[k]? with
  | none => simp [hk] at h
  | some u =>
    obtain ⟨src, pc⟩ := u
    simp only [hk] at h
    cases hf : fs[src]? with
    | none => simp [hf] at h
    | some f =>
      simp only [hf] at h
      have hmem : (⟨src, pc⟩ : Goroutine) ∈ units := List.getElem?_mem hk
      cases pc with
      | fetch =>
        simp only [Option.some.injEq] at h
        subst h
        obtain ⟨a, b, e1, e2, -⟩ := set_split hk
          (⟨src, .send (f.Fetch (env src)).data (f.Fetch (env src)).err⟩ : Goroutine)
        rw [e2]
        subst e1
        refine ⟨h1, h2, ?_, h4, ?_, ?_, ?_, h8, h9, ?_⟩
        · simpa using h3
        · simpa [live, List.countP_append, List.countP_cons] using h5
        · simpa [sentOf, hasSent] using h6
        · intro u hu d e hpc g hg
          simp only [List.mem_append, List.mem_cons] at hu
          rcases hu with hu | hu | hu
          · exact h7 u (by simp [hu]) d e hpc g hg
          · subst hu
            simp only [UnitPc.send.injEq] at hpc
            simp only [hf, Option.some.injEq] at hg
            subst hg
            exact ⟨hpc.1.symm, hpc.2.symm⟩
          · exact h7 u (by simp [hu]) d e hpc g hg
        · cases m <;> simpa [phaseOk] using h10
      | send d e =>
        have hlive : 0 < live units := live_pos_of_mem hmem (by simp)
        have hopen : closed = false := by
          cases hc : closed with
          | false => rfl
          | true =>
            rw [hc] at h8
            have := h9 (pastClose_pastWait h8.symm)
            omega
        subst hopen
        obtain ⟨a, b, e1, e2, -⟩ := set_split hk (⟨src, .done⟩ : Goroutine)
        have hde := h7 _ hmem d e rfl f hf
        simp only [Chan.send, Bool.false_eq_true, if_false] at h
        by_cases hlt : buf.length < cap
        · simp only [hlt, if_true, Option.some.injEq] at h
          subst h
          rw [e2]
          subst e1
          refine ⟨h1, h2, ?_, h4, ?_, ?_, ?_, h8, h9, ?_⟩
          · simpa using h3
          · simpa [live, List.countP_append, List.countP_cons] using h5
          · have ho : outcome fs env src = some ⟨f.GetSourceName, d, e⟩ := by
              simp [outcome, hf, hde.1, hde.2]
            simp only [sentOf, List.filterMap_append, List.filterMap_cons, hasSent,
              Bool.false_eq_true, if_false, if_true, ho] at h6 ⊢
            rw [← List.append_assoc]
            refine List.Perm.trans (List.perm_append_singleton _ _) ?_
            exact List.Perm.trans (List.Perm.cons _ h6) List.perm_middle.symm
          · intro u hu d' e' hpc g hg
            simp only [List.mem_append, List.mem_cons] at hu
            rcases hu with hu | hu | hu
            · exact h7 u (by simp [hu]) d' e' hpc g hg
            · subst hu
              simp at hpc
            · exact h7 u (by simp [hu]) d' e' hpc g hg
          · cases m <;> first
              | simpa [phaseOk] using h10
              | simp [pastClose] at h8
        · simp [hlt] at h
      | done =>
        have hlive : 0 < live units := live_pos_of_mem hmem (by simp)
        have hwg : ¬ wg = 0 := by omega
        simp only [hwg, if_false, Option.some.injEq] at h
        subst h
        obtain ⟨a, b, e1, e2, -⟩ := set_split hk (⟨src, .exited⟩ : Goroutine)
        rw [e2]
        subst e1
        have hnw : pastWait m = false := by
          cases hp : pastWait m with
          | false => rfl
          | true => exact absurd (h9 hp) hwg
        refine ⟨h1, h2, ?_, h4, ?_, ?_, ?_, h8, ?_, ?_⟩
        · simpa using h3
        · simp only [live, List.countP_append, List.countP_cons] at h5 ⊢
          simp at h5 ⊢
          omega
        · simpa [sentOf, hasSent] using h6
        · intro u hu d' e' hpc g hg
          simp only [List.mem_append, List.mem_cons] at hu
          rcases hu with hu | hu | hu
          · exact h7 u (by simp [hu]) d' e' hpc g hg
          · subst hu
            simp at hpc
          · exact h7 u (by simp [hu]) d' e' hpc g hg
        · intro hp
          simp [hnw] at hp
        · cases m <;> simpa [phaseOk] using h10
      | exited => simp at h

theorem step_inv {fs : List DataFetcher} {env : Nat → Draws} {s t : State} {a : Action}
    (hI : Inv fs env s) (h : step fs env s a = some t) : Inv fs env t := by
  unfold step at h
  split at h
  · simp at h
  · cases a with
    | main => exact stepMain_inv hI h
    | unit k => exact stepUnit_inv hI h

theorem exec_inv {fs : List DataFetcher} {env : Nat → Draws} (sched : List Action) :
    ∀ {s t : State}, Inv fs env s → exec fs env sched s = some t → Inv fs env t := by
  induction sched with
  | nil =>
    intro s t hI h
    simp only [exec, Option.some.injEq] at h
    exact h ▸ hI
  | cons a as ih =>
    intro s t hI h
    simp only [exec] at h
    cases hs : step fs env s a with
    | none => simp [hs] at h
    | some s1 =>
      rw [hs] at h
      exact ih (step_inv hI hs) h

theorem reachable_inv {fs : List DataFetcher} {env : Nat → Draws} {s : State}
    (h : Reachable fs env s) : Inv fs env s := by
  obtain ⟨sched, hs⟩ := h
  exact exec_inv sched (inv_init fs env) hs

/-! ## Progress and termination -/

theorem src_lt {fs : List DataFetcher} {env : Nat → Draws} {s : State} (hI : Inv fs env s)
    {u : Goroutine} (hu : u ∈ s.units) : u.src < fs.length := by
  have h1 : u.src ∈ s.units.map (fun u => u.src) := List.mem_map.mpr ⟨u, hu, rfl⟩
  rw [hI.srcs, List.mem_range] at h1
  exact lt_of_lt_of_le h1 (spawned_le hI.bound)

theorem units_length {fs : List DataFetcher} {env : Nat → Draws} {s : State}
    (hI : Inv fs env s) : s.units.length = spawned fs.length s.main := by
  have h := congrArg List.length hI.srcs
  simpa using h

theorem open_of_live {fs : List DataFetcher} {env : Nat → Draws} {s : State}
    (hI : Inv fs env s) {u : Goroutine} (hu : u ∈ s.units) (hpc : u.pc ≠ .exited) :
    0 < s.wg ∧ s.ch.closed = false := by
  have hl := live_pos_of_mem hu hpc
  have hw : 0 < s.wg := by
    rw [hI.count]
    omega
  refine ⟨hw, ?_⟩
  cases hc : s.ch.closed with
  | false => rfl
  | true =>
    have h8 := hI.closed
    rw [hc] at h8
    have := hI.quiet (pastClose_pastWait h8.symm)
    omega

theorem room_of_unsent {fs : List DataFetcher} {env : Nat → Draws} {s : State}
    (hI : Inv fs env s) {u : Goroutine} (hu : u ∈ s.units) (hpc : hasSent u.pc = false) :
    s.drained.length + s.ch.buf.length < fs.length := by
  obtain ⟨k, hk⟩ := List.mem_iff_getElem?.mp hu
  obtain ⟨a, b, e1, -, -⟩ := set_split hk u
  have h1 := hI.perm.length_eq
  have h2 : (sentOf fs env s.units).length < s.units.length := by
    rw [e1]
    exact sentOf_length_lt hpc
  have h3 := units_length hI
  have h4 := spawned_le hI.bound
  simp only [List.length_append] at h1
  omega

theorem buf_le_cap {fs : List DataFetcher} {env : Nat → Draws} {s : State}
    (hI : Inv fs env s) : s.drained.length + s.ch.buf.length ≤ fs.length := by
  have h1 := hI.perm.length_eq
  have h2 : (sentOf fs env s.units).length ≤ s.units.length := List.length_filterMap_le _ _
  have h3 := units_length hI
  have h4 := spawned_le hI.bound
  simp only [List.length_append] at h1
  omega

theorem unit_enabled {fs : List DataFetcher} {env : Nat → Draws} {s : State}
    (hI : Inv fs env s) (hm : s.main ≠ .exit) {k : Nat} {u : Goroutine}
    (hk : s.units[k]? = some u) (hpc : u.pc ≠ .exited) :
    ∃ t, step fs env s (.unit k) = some t := by
  have hu : u ∈ s.units := List.getElem?_mem hk
  have hsrc := src_lt hI hu
  obtain ⟨hw, hopen⟩ := open_of_live hI hu hpc
  have hf : fs[u.src]? = some fs[u.src] := by simp [hsrc]
  simp only [step, hI.noPanic, hm, Bool.false_eq_true, or_self, if_false, stepUnit, hk, hf]
  cases hp : u.pc with
  | fetch => exact ⟨_, rfl⟩
  | send d e =>
    have hroom := room_of_unsent hI hu (by simp [hp, hasSent])
    have hlt : s.ch.buf.length < s.ch.cap := by
      rw [hI.cap]
      omega
    simp only [Chan.send, hopen, Bool.false_eq_true, if_false, hlt, if_true]
    exact ⟨_, rfl⟩
  | done =>
    have hwg : ¬ s.wg = 0 := by omega
    simp only [hwg, if_false]
    exact ⟨_, rfl⟩
  | exited => exact absurd hp hpc

theorem progress {fs : List DataFetcher} {env : Nat → Draws} {s : State}
    (hI : Inv fs env s) (hm : s.main ≠ .exit) : ∃ a t, step fs env s a = some t := by
  by_cases hmain : ∃ t, stepMain fs s = some t
  · obtain ⟨t, ht⟩ := hmain
    refine ⟨.main, t, ?_⟩
    simp [step, hI.noPanic, hm, ht]
  · have hcases : s.main = .wait ∧ s.wg ≠ 0 := by
      obtain ⟨m, wg, ⟨buf, cap, closed⟩, units, drained, out, panicked⟩ := s
      have h8 := hI.closed
      simp only at h8 hm
      cases m with
      | wait =>
        refine ⟨rfl, ?_⟩
        intro hw
        simp only at hw
        simp [stepMain, hw] at hmain
      | loopAdd i =>
        by_cases hi : i < fs.length
        · simp [stepMain, hi] at hmain
        · simp [stepMain, hi] at hmain
      | close =>
        simp only [pastClose] at h8
        simp [stepMain, Chan.close, h8] at hmain
      | range =>
        simp only [pastClose] at h8
        cases buf with
        | nil => simp [stepMain, Chan.recv, h8] at hmain
        | cons v rest => simp [stepMain, Chan.recv] at hmain
      | exit => exact absurd rfl hm
      | start => simp [stepMain] at hmain
      | loopGo i => simp [stepMain] at hmain
      | printDone => simp [stepMain] at hmain
      | printEnd => simp [stepMain] at hmain
    obtain ⟨hw, hwg⟩ := hcases
    have hl : 0 < live s.units := by
      have := hI.count
      simp only [hw, pendingAdd] at this
      omega
    unfold live at hl
    rw [List.countP_pos_iff] at hl
    obtain ⟨u, hu, hpc⟩ := hl
    obtain ⟨k, hk⟩ := List.mem_iff_getElem?.mp hu
    obtain ⟨t, ht⟩ := unit_enabled hI hm hk (by simpa using hpc)
    exact ⟨.unit k, t, ht⟩

theorem stepMain_measure {fs : List DataFetcher} {env : Nat → Draws} {s t : State}
    (hI : Inv fs env s) (h : stepMain fs s = some t) :
    measure fs.length t < measure fs.length s := by
  have hp := hI.noPanic
  have hq := (stepMain_inv hI h).noPanic
  have hb := hI.bound
  obtain ⟨m, wg, ⟨buf, cap, closed⟩, units, drained, out, panicked⟩ := s
  simp only at hp hb
  subst hp
  cases m with
  | start =>
    simp only [stepMain, Option.some.injEq] at h
    subst h
    simp [measure, mainRank]
  | loopAdd i =>
    simp only [stepMain] at h
    split at h
    · simp only [Option.some.injEq] at h
      subst h
      simp [measure, mainRank]
    · simp only [Option.some.injEq] at h
      subst h
      simp only [measure, mainRank, Bool.false_eq_true, if_false]
      omega
  | loopGo i =>
    simp only [stepMain, Option.some.injEq] at h
    subst h
    simp only [inBounds] at hb
    simp only [measure, mainRank, Bool.false_eq_true, if_false, List.map_append, List.sum_append,
      List.map_cons, List.map_nil, List.sum_cons, List.sum_nil, unitRank]
    omega
  | wait =>
    simp only [stepMain] at h
    split at h
    · simp only [Option.some.injEq] at h
      subst h
      simp [measure, mainRank]
    · simp at h
  | close =>
    have h8 := hI.closed
    simp only [pastClose] at h8
    subst h8
    simp only [stepMain, Chan.close, Bool.false_eq_true, if_false, Option.some.injEq] at h
    subst h
    simp [measure, mainRank]
  | printDone =>
    simp only [stepMain, Option.some.injEq] at h
    subst h
    simp [measure, mainRank]
  | range =>
    cases buf with
    | nil =>
      have h8 := hI.closed
      simp only [pastClose] at h8
      subst h8
      simp only [stepMain, Chan.recv, if_true, Option.some.injEq] at h
      subst h
      simp [measure, mainRank]
    | cons v rest =>
      simp only [stepMain, Chan.recv, Option.some.injEq] at h
      subst h
      simp only [measure, mainRank, Bool.false_eq_true, if_false, List.length_cons]
      omega
  | printEnd =>
    simp only [stepMain, Option.some.injEq] at h
    subst h
    simp [measure, mainRank]
  | exit => simp [stepMain] at h

theorem stepUnit_measure {fs : List DataFetcher} {env : Nat → Draws} {s t : State} {k : Nat}
    (hI : Inv fs env s) (h : stepUnit fs env s k = some t) :
    measure fs.length t < measure fs.length s := by
  have hp := hI.noPanic
  have hq := (stepUnit_inv hI h).noPanic
  obtain ⟨m, wg, ⟨buf, cap, closed⟩, units, drained, out, panicked⟩ := s
  simp only at hp
  subst hp
  simp only [stepUnit] at h
  cases hk : units[k]? with
  | none => simp [hk] at h
  | some u =>
    obtain ⟨src, pc⟩ := u
    simp only [hk] at h
    cases hf : fs[src]? with
    | none => simp [hf] at h
    | some f =>
      simp only [hf] at h
      cases pc with
      | fetch =>
        simp only [Option.some.injEq] at h
        subst h
        obtain ⟨a, b, e1, e2, -⟩ := set_split hk
          (⟨src, .send (f.Fetch (env src)).data (f.Fetch (env src)).err⟩ : Goroutine)
        rw [e2]
        subst e1
        simp only [measure, Bool.false_eq_true, if_false, List.map_append, List.sum_append,
          List.map_cons, List.sum_cons, unitRank]
        omega
      | send d e =>
        obtain ⟨a, b, e1, e2, -⟩ := set_split hk (⟨src, .done⟩ : Goroutine)
        simp only [Chan.send] at h
        cases closed with
        | true =>
          simp only [if_true, Option.some.injEq] at h
          subst h
          simp at hq
        | false =>
          by_cases hlt : buf.length < cap
          · simp only [Bool.false_eq_true, if_false, hlt, if_true, Option.some.injEq] at h
            subst h
            rw [e2]
            subst e1
            simp only [measure, Bool.false_eq_true, if_false, List.map_append, List.sum_append,
              List.map_cons, List.sum_cons, unitRank, List.length_append, List.length_singleton]
            omega
          · simp [hlt] at h
      | done =>
        obtain ⟨a, b, e1, e2, -⟩ := set_split hk (⟨src, .exited⟩ : Goroutine)
        by_cases hwg : wg = 0
        · simp only [hwg, if_true, Option.some.injEq] at h
          subst h
          simp at hq
        · simp only [hwg, if_false, Option.some.injEq] at h
          subst h
          rw [e2]
          subst e1
          simp only [measure, Bool.false_eq_true, if_false, List.map_append, List.sum_append,
            List.map_cons, List.sum_cons, unitRank]
          omega
      | exited => simp at h

theorem step_measure {fs : List DataFetcher} {env : Nat → Draws} {s t : State} {a : Action}
    (hI : Inv fs env s) (h : step fs env s a = some t) :
    measure fs.length t < measure fs.length s := by
  unfold step at h
  split at h
  · simp at h
  · cases a with
    | main => exact stepMain_measure hI h
    | unit k => exact stepUnit_measure hI h

theorem exec_append (fs : List DataFetcher) (env : Nat → Draws) (p q : List Action)
    (s : State) :
    exec fs env (p ++ q) s = (exec fs env p s).bind (exec fs env q) := by
  induction p generalizing s with
  | nil => simp [exec]
  | cons a p ih =>
    simp only [List.cons_append, exec]
    cases step fs env s a with
    | none => simp
    | some t => simp [ih]

/-- Every schedule has at most as many actions as the measure of its start. -/
theorem exec_length_le {fs : List DataFetcher} {env : Nat → Draws} (sched : List Action) :
    ∀ {s t : State}, Inv fs env s → exec fs env sched s = some t →
      sched.length + measure fs.length t ≤ measure fs.length s := by
  induction sched with
  | nil =>
    intro s t _ h
    simp only [exec, Option.some.injEq] at h
    subst h
    simp
  | cons a as ih =>
    intro s t hI h
    simp only [exec] at h
    cases hs : step fs env s a with
    | none => simp [hs] at h
    | some s1 =>
      rw [hs] at h
      have h1 := ih (step_inv hI hs) h
      have h2 := step_measure hI hs
      simp only [List.length_cons]
      omega

/-- From every state satisfying the invariant some schedule leads `main`
to its end. -/
theorem completes {fs : List DataFetcher} {env : Nat → Draws} :
    ∀ (n : Nat) (s : State), measure fs.length s ≤ n → Inv fs env s →
      ∃ sched t, exec fs env sched s = some t ∧ t.main = .exit := by
  intro n
  induction n with
  | zero =>
    intro s hn hI
    by_cases hm : s.main = .exit
    · exact ⟨[], s, rfl, hm⟩
    · obtain ⟨a, t, ht⟩ := progress hI hm
      have := step_measure hI ht
      omega
  | succ n ih =>
    intro s hn hI
    by_cases hm : s.main = .exit
    · exact ⟨[], s, rfl, hm⟩
    · obtain ⟨a, t, ht⟩ := progress hI hm
      have hlt := step_measure hI ht
      obtain ⟨sched, t2, h1, h2⟩ := ih t (by omega) (step_inv hI ht)
      exact ⟨a :: sched, t2, by simp [exec, ht, h1], h2⟩

/-! ## The sources -/

/-- C5: the product fetcher fails exactly when its failure draw is below 2,
which is 2 of the 10 values of the draw (one in five, 20%); a failure has an
empty payload and the error "failed to fetch product data", a success has the
payload "Product data fetched successfully." and no error. -/
theorem product_fetch_fails_iff_draw_lt_two (d : Draws) :
    ((ProductFetcher.Fetch d).err ≠ none ↔ d.fail < 2)
    ∧ ((List.range 10).filter
        (fun x => decide ((ProductFetcher.Fetch ⟨d.delay, x⟩).err ≠ none))) = [0, 1]
    ∧ (((List.range 10).countP
        (fun x => decide ((ProductFetcher.Fetch ⟨d.delay, x⟩).err ≠ none)) : ℚ) / 10 = 20 / 100)
    ∧ (d.fail < 2 → (ProductFetcher.Fetch d).data = ""
        ∧ (ProductFetcher.Fetch d).err = some "failed to fetch product data")
    ∧ (¬ d.fail < 2 → (ProductFetcher.Fetch d).data = "Product data fetched successfully."
        ∧ (ProductFetcher.Fetch d).err = none) := by
  have hfail : ∀ x : Nat, decide ((ProductFetcher.Fetch ⟨d.delay, x⟩).err ≠ none)
      = decide (x < 2) := by
    intro x
    by_cases hx : x < 2 <;> simp [ProductFetcher.Fetch, hx]
  have hfun : (fun x => decide ((ProductFetcher.Fetch ⟨d.delay, x⟩).err ≠ none))
      = (fun x => decide (x < 2)) := funext hfail
  refine ⟨?_, ?_, ?_, ?_, ?_⟩
  · by_cases hx : d.fail < 2 <;> simp [ProductFetcher.Fetch, hx]
  · rw [hfun]
    decide
  · rw [hfun]
    have : (List.range 10).countP (fun x => decide (x < 2)) = 2 := by decide
    rw [this]
    norm_num
  · intro hx
    simp [ProductFetcher.Fetch, hx]
  · intro hx
    simp [ProductFetcher.Fetch, hx]

/-- C6: for each of the three fetchers and every value `r < 500` of the delay
draw, the duration slept is `r + 500` milliseconds, at least 500ms and below
1000ms; the draw 0 gives exactly 500ms. -/
theorem sleep_between_500_and_1000_ms (f : DataFetcher) (d : Draws) (hf : f ∈ fetchers)
    (hr : d.delay < 500) :
    (f.Fetch d).slept = (d.delay + 500) * Millisecond
    ∧ 500 * Millisecond ≤ (f.Fetch d).slept
    ∧ (f.Fetch d).slept < 1000 * Millisecond
    ∧ (f.Fetch d).slept ≠ 1000 * Millisecond
    ∧ (f.Fetch ⟨0, d.fail⟩).slept = 500 * Millisecond := by
  have hs : ∀ x : Draws, (f.Fetch x).slept = (x.delay + 500) * Millisecond := by
    intro x
    simp only [fetchers, List.mem_cons, List.mem_singleton, List.not_mem_nil, or_false] at hf
    rcases hf with rfl | rfl | rfl
    · rfl
    · simp only [ProductFetcher, ProductFetcher.Fetch]
      split <;> rfl
    · rfl
  rw [hs d, hs ⟨0, d.fail⟩]
  refine ⟨rfl, ?_, ?_, ?_, ?_⟩ <;> simp only [Millisecond] <;> omega

/-- Witness of C6: the user fetcher with the delay draw 499 sleeps 999ms. -/
theorem sleep_between_500_and_1000_ms_witness :
    UserFetcher ∈ fetchers ∧ (⟨499, 0⟩ : Draws).delay < 500
    ∧ (UserFetcher.Fetch ⟨499, 0⟩).slept = 999 * Millisecond := by
  refine ⟨by simp [fetchers], by decide, ?_⟩
  exact (sleep_between_500_and_1000_ms UserFetcher ⟨499, 0⟩ (by simp [fetchers])
    (by decide)).1

/-! ## The channel -/

theorem drainLoop_closed (cap : Nat) (buf : List FetchResult) :
    ∀ fuel, buf.length < fuel →
      drainLoop fuel { buf := buf, cap := cap, closed := true }
        = some (buf, { buf := [], cap := cap, closed := true }) := by
  induction buf with
  | nil =>
    intro fuel hf
    cases fuel with
    | zero => omega
    | succ n => simp [drainLoop, Chan.recv]
  | cons v rest ih =>
    intro fuel hf
    cases fuel with
    | zero => omega
    | succ n =>
      simp only [List.length_cons] at hf
      simp [drainLoop, Chan.recv, ih n (by omega)]

/-- C9: on a closed channel the `range` loop returns everything queued and
leaves the channel empty and closed; a second loop over it returns nothing,
so two loops return what one returns. -/
theorem second_drain_is_empty (c : Chan) (h : c.closed = true) :
    drain c = some (c.buf, { c with buf := [] })
    ∧ drain { c with buf := [] } = some ([], { c with buf := [] })
    ∧ drainTwice c = drain c := by
  obtain ⟨buf, cap, closed⟩ := c
  simp only at h
  subst h
  have h1 : drain { buf := buf, cap := cap, closed := true }
      = some (buf, { buf := [], cap := cap, closed := true }) :=
    drainLoop_closed cap buf _ (by simp)
  have h2 : drain { buf := [], cap := cap, closed := true }
      = some ([], { buf := [], cap := cap, closed := true }) :=
    drainLoop_closed cap [] _ (by simp)
  refine ⟨h1, h2, ?_⟩
  simp [drainTwice, h1, h2]

/-- Witness of C9: a closed channel holding two outcomes. -/
theorem second_drain_is_empty_witness :
    (⟨[⟨"User Service", "User data fetched successfully.", none⟩,
       ⟨"Product Service", "", some "failed to fetch product data"⟩], 3, true⟩ : Chan).closed
      = true
    ∧ drainTwice ⟨[⟨"User Service", "User data fetched successfully.", none⟩,
       ⟨"Product Service", "", some "failed to fetch product data"⟩], 3, true⟩
      = drain ⟨[⟨"User Service", "User data fetched successfully.", none⟩,
       ⟨"Product Service", "", some "failed to fetch product data"⟩], 3, true⟩ :=
  ⟨rfl, (second_drain_is_empty _ rfl).2.2⟩

/-! ## The fan-in -/

theorem reachable_runOf {fs : List DataFetcher} {env : Nat → Draws} {sched : List Action}
    (h : (exec fs env sched (init fs)).isSome = true) :
    Reachable fs env (runOf fs env sched) := by
  refine ⟨sched, ?_⟩
  unfold runOf
  cases he : exec fs env sched (init fs) with
  | none => simp [he] at h
  | some t => rfl

/-- Once the counter is zero with `main` at `wg.Wait()` or beyond, every
goroutine has been started, has sent and has returned. -/
theorem all_sent {fs : List DataFetcher} {env : Nat → Draws} {s : State}
    (hI : Inv fs env s) (hm : atOrPastWait s.main = true) (hw : s.wg = 0) :
    s.units.length = fs.length ∧ (∀ u ∈ s.units, u.pc = .exited)
      ∧ (s.drained ++ s.ch.buf).Perm (expected fs env) := by
  have hsp : spawned fs.length s.main = fs.length := by
    cases hmm : s.main <;> simp_all [atOrPastWait, spawned]
  have hlive : live s.units = 0 := by
    have := hI.count
    omega
  have hex := live_eq_zero hlive
  refine ⟨by rw [units_length hI, hsp], hex, ?_⟩
  have hp := hI.perm
  rw [sentOf_all_exited fs env s.units hex, hI.srcs, hsp] at hp
  exact hp

theorem atOrPastWait_of_pastWait {m : MainPc} (h : pastWait m = true) :
    atOrPastWait m = true := by
  cases m <;> simp_all [pastWait, atOrPastWait]

theorem exit_drained {fs : List DataFetcher} {env : Nat → Draws} {s : State}
    (hI : Inv fs env s) (hm : s.main = .exit) : s.drained.Perm (expected fs env) := by
  have hq := hI.quiet (by simp [hm, pastWait])
  have h := (all_sent hI (by simp [hm, atOrPastWait]) hq).2.2
  have hp := hI.phase
  simp only [phaseOk, hm] at hp
  simpa [hp.2] using h

/-- C1: every run can be completed, and in every completed run the reporting
loop has received exactly one outcome per source: as many outcomes as sources,
and their source names are the names of the sources up to order. -/
theorem drained_one_outcome_per_source (fs : List DataFetcher) (env : Nat → Draws) (s : State)
    (h : Reachable fs env s) :
    (∃ sched t, exec fs env sched s = some t ∧ t.main = .exit)
    ∧ (s.main = .exit →
        s.drained.length = fs.length
        ∧ (s.drained.map (fun r => r.Source)).Perm (fs.map (fun f => f.GetSourceName))) := by
  have hI := reachable_inv h
  refine ⟨completes _ s (le_refl _) hI, ?_⟩
  intro hm
  have hp := exit_drained hI hm
  refine ⟨?_, ?_⟩
  · rw [hp.length_eq, expected_length]
  · have := hp.map (fun r => r.Source)
    rwa [expected_sources] at this

/-- Witness of C1: the three fetchers of `main`, run to the end. -/
theorem drained_one_outcome_per_source_witness :
    Reachable fetchers failingDraws (runOf fetchers failingDraws (seqSchedule 3))
    ∧ (runOf fetchers failingDraws (seqSchedule 3)).drained.length = 3
    ∧ ((runOf fetchers failingDraws (seqSchedule 3)).drained.map (fun r => r.Source)).Perm
        ["User Service", "Product Service", "Order Service"] :=
  ⟨reachable_runOf (by decide),
    (drained_one_outcome_per_source fetchers failingDraws
      (runOf fetchers failingDraws (seqSchedule 3)) (reachable_runOf (by decide))).2
      (by decide)⟩

theorem unit_step_closed {fs : List DataFetcher} {env : Nat → Draws} {s : State}
    (hI : Inv fs env s) (hc : s.ch.closed = true) :
    (∀ u ∈ s.units, u.pc = .exited) ∧ ∀ k, step fs env s (.unit k) = none := by
  have h8 := hI.closed
  rw [hc] at h8
  have hq := hI.quiet (pastClose_pastWait h8.symm)
  have hall := (all_sent hI (atOrPastWait_of_pastWait (pastClose_pastWait h8.symm)) hq).2.1
  refine ⟨hall, ?_⟩
  intro k
  unfold step
  split
  · rfl
  · cases hk : s.units[k]? with
    | none => simp [stepUnit, hk]
    | some u =>
      have hpc := hall u (List.getElem?_mem hk)
      cases hf : fs[u.src]? with
      | none => simp [stepUnit, hk, hf]
      | some f => simp [stepUnit, hk, hf, hpc]

/-- C2: the program never panics; the counter is the number of goroutines
that have not returned (plus one between `wg.Add(1)` and the `go` statement),
so a counter equal to zero means that every goroutine started has sent its
outcome, and with `main` at `wg.Wait()` or beyond all `N` have been started;
when the wait returns the channel holds exactly `N` outcomes; and once the
channel is closed every goroutine has returned, so none can send any more. -/
theorem wait_returns_after_all_sends (fs : List DataFetcher) (env : Nat → Draws) (s : State)
    (h : Reachable fs env s) :
    s.panicked = false
    ∧ s.wg = live s.units + pendingAdd s.main
    ∧ (s.wg = 0 → ∀ u ∈ s.units, hasSent u.pc = true)
    ∧ (atOrPastWait s.main = true → s.wg = 0 →
        s.units.length = fs.length ∧ (∀ u ∈ s.units, hasSent u.pc = true)
        ∧ (s.drained ++ s.ch.buf).length = fs.length)
    ∧ (∀ t, s.main = .wait → step fs env s .main = some t →
        s.wg = 0 ∧ t.main = .close ∧ t.ch.buf.length = fs.length ∧ t.ch.closed = false)
    ∧ (s.main = .close → s.ch.buf.length = fs.length ∧ s.ch.closed = false)
    ∧ (s.ch.closed = true →
        (∀ u ∈ s.units, u.pc = .exited) ∧ ∀ k, step fs env s (.unit k) = none) := by
  have hI := reachable_inv h
  have key : ∀ m, s.main = m → (m = .wait ∨ m = .close) → s.wg = 0 →
      s.ch.buf.length = fs.length ∧ s.ch.closed = false := by
    intro m hm hor hw
    have hat : atOrPastWait s.main = true := by
      rcases hor with rfl | rfl <;> simp [hm, atOrPastWait]
    have hlen := (all_sent hI hat hw).2.2.length_eq
    have hp := hI.phase
    have hc := hI.closed
    rw [expected_length] at hlen
    rcases hor with rfl | rfl
    · simp only [phaseOk, hm] at hp
      simp only [hm, pastClose] at hc
      simp only [hp.2, List.nil_append] at hlen
      exact ⟨hlen, hc⟩
    · simp only [phaseOk, hm] at hp
      simp only [hm, pastClose] at hc
      simp only [hp.2, List.nil_append] at hlen
      exact ⟨hlen, hc⟩
  refine ⟨hI.noPanic, hI.count, ?_, ?_, ?_, ?_, ?_⟩
  · intro hw u hu
    have hl : live s.units = 0 := by
      have := hI.count
      omega
    simp [live_eq_zero hl u hu, hasSent]
  · intro hm hw
    obtain ⟨h1, h2, h3⟩ := all_sent hI hm hw
    refine ⟨h1, ?_, ?_⟩
    · intro u hu
      simp [h2 u hu, hasSent]
    · rw [h3.length_eq, expected_length]
  · intro t hm ht
    simp only [step, hI.noPanic, hm, Bool.false_eq_true, false_or, stepMain] at ht
    by_cases hw : s.wg = 0
    · simp only [reduceCtorEq, if_false, hw, if_true, Option.some.injEq] at ht
      subst ht
      exact ⟨hw, rfl, key _ hm (Or.inl rfl) hw⟩
    · simp [hw] at ht
  · intro hm
    exact key _ hm (Or.inr rfl) (hI.quiet (by simp [hm, pastWait]))
  · exact unit_step_closed hI

/-- Witness of C2: the three fetchers of `main`, all goroutines finished and
`main` about to return from `wg.Wait()`. -/
theorem wait_returns_after_all_sends_witness :
    Reachable fetchers failingDraws (runOf fetchers failingDraws (List.take 17 (seqSchedule 3)))
    ∧ (runOf fetchers failingDraws (List.take 17 (seqSchedule 3))).main = .wait
    ∧ (runOf fetchers failingDraws (List.take 17 (seqSchedule 3))).wg = 0
    ∧ (runOf fetchers failingDraws (List.take 17 (seqSchedule 3))).ch.buf.length = 3 :=
  ⟨reachable_runOf (by decide), by decide, by decide,
    ((wait_returns_after_all_sends fetchers failingDraws
      (runOf fetchers failingDraws (List.take 17 (seqSchedule 3)))
      (reachable_runOf (by decide))).2.2.2.1 (by decide) (by decide)).2.2⟩

/-! ## No goroutine blocks -/

/-- C10: the channel has capacity `N` and never holds more than `N` outcomes;
a goroutine about to send finds the channel open with fewer than `N` queued, so
every goroutine that has not returned can always take its next step; some
action is enabled in every state before the end of `main`, and nothing is
received before the wait has returned. -/
theorem no_goroutine_blocks (fs : List DataFetcher) (env : Nat → Draws) (s : State)
    (h : Reachable fs env s) :
    s.ch.cap = fs.length
    ∧ s.ch.buf.length ≤ s.ch.cap
    ∧ (∀ u ∈ s.units, ∀ d e, u.pc = .send d e →
        s.ch.buf.length < s.ch.cap ∧ s.ch.closed = false)
    ∧ (∀ k u, s.main ≠ .exit → s.units[k]? = some u → u.pc ≠ .exited →
        ∃ t, step fs env s (.unit k) = some t ∧ t.panicked = false)
    ∧ (s.main ≠ .exit → ∃ a t, step fs env s a = some t)
    ∧ (pastWait s.main = false → s.drained = []) := by
  have hI := reachable_inv h
  refine ⟨hI.cap, ?_, ?_, ?_, ?_, ?_⟩
  · have := buf_le_cap hI
    rw [hI.cap]
    omega
  · intro u hu d e hpc
    have h1 := room_of_unsent hI hu (by simp [hpc, hasSent])
    have h2 := open_of_live hI hu (by simp [hpc])
    rw [hI.cap]
    exact ⟨by omega, h2.2⟩
  · intro k u hm hk hpc
    obtain ⟨t, ht⟩ := unit_enabled hI hm hk hpc
    have hIt : Inv fs env t := step_inv hI ht
    exact ⟨t, ht, hIt.noPanic⟩
  · exact progress hI
  · intro hm
    have hp := hI.phase
    unfold phaseOk at hp
    cases hmm : s.main <;> simp_all [pastWait]

/-- Witness of C10: all three goroutines of `main` stand before their send
with nothing queued; the first one sends. -/
theorem no_goroutine_blocks_witness :
    Reachable fetchers failingDraws
      (runOf fetchers failingDraws (List.take 8 (seqSchedule 3) ++ [.unit 0, .unit 1, .unit 2]))
    ∧ ∃ t, step fetchers failingDraws
        (runOf fetchers failingDraws
          (List.take 8 (seqSchedule 3) ++ [.unit 0, .unit 1, .unit 2])) (.unit 0) = some t
      ∧ t.panicked = false :=
  ⟨reachable_runOf (by decide),
    (no_goroutine_blocks fetchers failingDraws
      (runOf fetchers failingDraws (List.take 8 (seqSchedule 3) ++ [.unit 0, .unit 1, .unit 2]))
      (reachable_runOf (by decide))).2.2.2.1 0
      ⟨0, .send "User data fetched successfully." none⟩ (by decide) (by decide) (by decide)⟩

/-! ## Failures are data -/

theorem outcome_congr (fs : List DataFetcher) {env env2 : Nat → Draws} {i : Nat}
    (h : env2 i = env i) : outcome fs env2 i = outcome fs env i := by
  unfold outcome
  rw [h]

theorem others_congr (fs : List DataFetcher) {env env2 : Nat → Draws} {j : Nat}
    (h : ∀ i, i ≠ j → env2 i = env i) : others fs env2 j = others fs env j := by
  unfold others
  apply List.filterMap_congr
  intro i hi
  have hne : i ≠ j := by
    intro hij
    subst hij
    exact ((List.nodup_range fs.length).mem_erase_iff.mp hi).1 rfl
  exact outcome_congr fs (h i hne)

theorem expected_split (fs : List DataFetcher) (env : Nat → Draws) {j : Nat}
    (hj : j < fs.length) :
    ∃ r, outcome fs env j = some r ∧ (expected fs env).Perm (r :: others fs env j) := by
  have ho : outcome fs env j = some ⟨fs[j].GetSourceName, (fs[j].Fetch (env j)).data,
      (fs[j].Fetch (env j)).err⟩ := by
    simp [outcome, hj]
  refine ⟨_, ho, ?_⟩
  have hp : (List.range fs.length).Perm (j :: (List.range fs.length).erase j) :=
    List.perm_cons_erase (List.mem_range.mpr hj)
  have := hp.filterMap (outcome fs env)
  simpa [expected, others, List.filterMap_cons, ho] using this

theorem unit_runs {fs : List DataFetcher} {env : Nat → Draws} {s : State}
    (hI : Inv fs env s) (hm : s.main ≠ .exit) {k i : Nat}
    (hk : s.units[k]? = some ⟨i, .fetch⟩) :
    ∃ f, fs[i]? = some f ∧ 0 < s.wg
      ∧ exec fs env [.unit k, .unit k, .unit k] s
        = some { s with
            ch := { s.ch with buf := s.ch.buf ++
              [⟨f.GetSourceName, (f.Fetch (env i)).data, (f.Fetch (env i)).err⟩] }
            wg := s.wg - 1
            units := s.units.set k ⟨i, .exited⟩ } := by
  have hu : (⟨i, .fetch⟩ : Goroutine) ∈ s.units := List.getElem?_mem hk
  have hsrc : i < fs.length := src_lt hI hu
  obtain ⟨hw, hopen⟩ := open_of_live hI hu (by simp)
  have hroom := room_of_unsent hI hu (by simp [hasSent])
  have hf : fs[i]? = some fs[i] := by simp [hsrc]
  have hklt : k < s.units.length := (List.getElem?_eq_some.mp hk).1
  have hcap := hI.cap
  have hnp := hI.noPanic
  refine ⟨fs[i], hf, hw, ?_⟩
  obtain ⟨m, wg, ⟨buf, cap, closed⟩, units, drained, out, panicked⟩ := s
  simp only at hm hk hw hopen hroom hklt hcap hnp
  subst hopen hnp hcap
  have hlt : buf.length < fs.length := by omega
  have hwg : ¬ wg = 0 := by omega
  simp [exec, step, stepUnit, hm, hk, hf, hklt, Chan.send, hlt, hwg]

/-- C3: whatever its fetch returns, a goroutine standing before its fetch
runs to its end in three steps that queue exactly one outcome, carrying the
name of its source and the payload and error returned, and decrement the
counter by one; in every completed run the outcomes received are those of all
sources, and when the draws of one source change (so that it fails instead of
succeeding), the outcomes of all the other sources are received unchanged. -/
theorem failure_of_one_source_keeps_the_others (fs : List DataFetcher) (env : Nat → Draws)
    (s : State) (h : Reachable fs env s) :
    (∀ k i, s.main ≠ .exit → s.units[k]? = some ⟨i, .fetch⟩ →
      ∃ f, fs[i]? = some f ∧ 0 < s.wg
        ∧ exec fs env [.unit k, .unit k, .unit k] s
          = some { s with
              ch := { s.ch with buf := s.ch.buf ++
                [⟨f.GetSourceName, (f.Fetch (env i)).data, (f.Fetch (env i)).err⟩] }
              wg := s.wg - 1
              units := s.units.set k ⟨i, .exited⟩ })
    ∧ (s.main = .exit → s.drained.Perm (expected fs env))
    ∧ (∀ j env2 s2, j < fs.length → (∀ i, i ≠ j → env2 i = env i) →
        Reachable fs env2 s2 → s.main = .exit → s2.main = .exit →
        ∃ r r2, outcome fs env j = some r ∧ outcome fs env2 j = some r2
          ∧ s.drained.Perm (r :: others fs env j)
          ∧ s2.drained.Perm (r2 :: others fs env j)) := by
  have hI := reachable_inv h
  refine ⟨?_, exit_drained hI, ?_⟩
  · intro k i hm hk
    exact unit_runs hI hm hk
  · intro j env2 s2 hj henv h2 hm hm2
    obtain ⟨r, hr, hp⟩ := expected_split fs env hj
    obtain ⟨r2, hr2, hp2⟩ := expected_split fs env2 hj
    rw [others_congr fs henv] at hp2
    exact ⟨r, r2, hr, hr2, (exit_drained hI hm).trans hp,
      (exit_drained (reachable_inv h2) hm2).trans hp2⟩

/-- Witness of C3: the three fetchers of `main` run to the end, once with
the product fetcher failing and once with it succeeding. -/
theorem failure_of_one_source_keeps_the_others_witness :
    Reachable fetchers failingDraws (runOf fetchers failingDraws (seqSchedule 3))
    ∧ Reachable fetchers passingDraws (runOf fetchers passingDraws (seqSchedule 3))
    ∧ ∃ r r2, outcome fetchers failingDraws 1 = some r ∧ outcome fetchers passingDraws 1 = some r2
        ∧ (runOf fetchers failingDraws (seqSchedule 3)).drained.Perm
            (r :: others fetchers failingDraws 1)
        ∧ (runOf fetchers passingDraws (seqSchedule 3)).drained.Perm
            (r2 :: others fetchers failingDraws 1) :=
  ⟨reachable_runOf (by decide), reachable_runOf (by decide),
    (failure_of_one_source_keeps_the_others fetchers failingDraws
      (runOf fetchers failingDraws (seqSchedule 3)) (reachable_runOf (by decide))).2.2
      1 passingDraws (runOf fetchers passingDraws (seqSchedule 3)) (by decide)
      (by intro i hi; simp [passingDraws, failingDraws, hi])
      (reachable_runOf (by decide)) (by decide) (by decide)⟩

/-! ## The report -/

theorem exit_out {fs : List DataFetcher} {env : Nat → Draws} {s : State}
    (hI : Inv fs env s) (hm : s.main = .exit) : s.out = consoleWrites s.drained := by
  have hp := hI.phase
  simp only [phaseOk, hm] at hp
  exact hp.1

theorem expected_fetchers (env : Nat → Draws) (hfail : (env 1).fail < 2) :
    expected fetchers env
      = [⟨"User Service", "User data fetched successfully.", none⟩,
         ⟨"Product Service", "", some "failed to fetch product data"⟩,
         ⟨"Order Service", "Order data fetched successfully.", none⟩] := by
  simp [expected, fetchers, outcome, List.range_succ, UserFetcher, ProductFetcher, OrderFetcher,
    UserFetcher.Fetch, ProductFetcher.Fetch, OrderFetcher.Fetch, UserFetcher.GetSourceName,
    ProductFetcher.GetSourceName, OrderFetcher.GetSourceName, hfail]

/-- C4: with the three fetchers of `main` and a failure draw below 2 for the
product fetcher, every run can be completed and every completed run, whatever
the order of completion, reports exactly three entries between the markers:
the failure of "Product Service" with "failed to fetch product data" and the
successes of "User Service" and "Order Service" with their payloads, in some
order; exactly one received outcome carries an error. -/
theorem scenario_product_fails (env : Nat → Draws) (s : State) (hfail : (env 1).fail < 2)
    (h : Reachable fetchers env s) :
    (∃ sched t, exec fetchers env sched s = some t ∧ t.main = .exit)
    ∧ (s.main = .exit →
        s.drained.Perm
          [⟨"User Service", "User data fetched successfully.", none⟩,
           ⟨"Product Service", "", some "failed to fetch product data"⟩,
           ⟨"Order Service", "Order data fetched successfully.", none⟩]
        ∧ s.drained.filter (fun r => decide (r.Error ≠ none))
          = [⟨"Product Service", "", some "failed to fetch product data"⟩]
        ∧ ∃ entries, s.out = [startMarker, doneMarker] ++ entries ++ [endMarker]
          ∧ entries.length = 3
          ∧ entries.Perm
            [renderSuccess "User Service" "User data fetched successfully.",
             renderFailure "Product Service" "failed to fetch product data",
             renderSuccess "Order Service" "Order data fetched successfully."]
          ∧ entries.Perm
            ["✅ User Service からの結果: User data fetched successfully.\n",
             "❌ Product Service からのエラー: failed to fetch product data\n",
             "✅ Order Service からの結果: Order data fetched successfully.\n"]) := by
  have hI := reachable_inv h
  refine ⟨completes _ s (le_refl _) hI, ?_⟩
  intro hm
  have hp := exit_drained hI hm
  rw [expected_fetchers env hfail] at hp
  refine ⟨hp, ?_, s.drained.map render, ?_, ?_, ?_, ?_⟩
  · have hf := hp.filter (fun r => decide (r.Error ≠ none))
    have hl : List.filter (fun r : FetchResult => decide (r.Error ≠ none))
        [⟨"User Service", "User data fetched successfully.", none⟩,
         ⟨"Product Service", "", some "failed to fetch product data"⟩,
         ⟨"Order Service", "Order data fetched successfully.", none⟩]
        = [⟨"Product Service", "", some "failed to fetch product data"⟩] := by
      decide
    rw [hl] at hf
    exact List.perm_singleton.mp hf
  · rw [exit_out hI hm]
    rfl
  · rw [List.length_map, hp.length_eq]
    rfl
  · exact hp.map render
  · have hr := hp.map render
    have hl : List.map render
        [⟨"User Service", "User data fetched successfully.", none⟩,
         ⟨"Product Service", "", some "failed to fetch product data"⟩,
         ⟨"Order Service", "Order data fetched successfully.", none⟩]
        = ["✅ User Service からの結果: User data fetched successfully.\n",
           "❌ Product Service からのエラー: failed to fetch product data\n",
           "✅ Order Service からの結果: Order data fetched successfully.\n"] := by
      decide
    rwa [hl] at hr

/-- Witness of C4: the goroutines finish in the order Order, Product, User. -/
theorem scenario_product_fails_witness :
    (failingDraws 1).fail < 2
    ∧ Reachable fetchers failingDraws
        (runOf fetchers failingDraws
          (List.replicate 8 Action.main
            ++ [.unit 2, .unit 1, .unit 0, .unit 2, .unit 1, .unit 0, .unit 2, .unit 1, .unit 0]
            ++ List.replicate 8 Action.main))
    ∧ (runOf fetchers failingDraws
          (List.replicate 8 Action.main
            ++ [.unit 2, .unit 1, .unit 0, .unit 2, .unit 1, .unit 0, .unit 2, .unit 1, .unit 0]
            ++ List.replicate 8 Action.main)).drained.Perm
        [⟨"User Service", "User data fetched successfully.", none⟩,
         ⟨"Product Service", "", some "failed to fetch product data"⟩,
         ⟨"Order Service", "Order data fetched successfully.", none⟩] :=
  ⟨by decide, reachable_runOf (by decide),
    ((scenario_product_fails failingDraws _ (by decide) (reachable_runOf (by decide))).2
      (by decide)).1⟩

theorem lineCount_append (a b : String) : lineCount (a ++ b) = lineCount a + lineCount b := by
  simp [lineCount, String.toList, String.data_append, List.count_append]

theorem lineCount_join (ss : List String) :
    lineCount (String.join ss) = (ss.map lineCount).sum := by
  induction ss with
  | nil => rfl
  | cons x xs ih =>
    have h : String.join (x :: xs) = x ++ String.join xs := by
      apply String.ext
      simp [String.data_join, String.data_append]
    rw [h, lineCount_append, ih]
    simp

theorem lineCount_noLineFeed {s : String} (h : noLineFeed s) : lineCount s = 0 := by
  unfold lineCount
  exact List.count_eq_zero.mpr h

theorem lineCount_render {r : FetchResult} (h : r.singleLine) : lineCount (render r) = 1 := by
  obtain ⟨h1, h2, h3⟩ := h
  have e1 : lineCount "❌ " = 0 := by decide
  have e2 : lineCount " からのエラー: " = 0 := by decide
  have e3 : lineCount "✅ " = 0 := by decide
  have e4 : lineCount " からの結果: " = 0 := by decide
  have e5 : lineCount "\n" = 1 := by decide
  unfold render
  cases he : r.Error with
  | none =>
    simp only [renderSuccess, lineCount_append, e3, e4, e5, lineCount_noLineFeed h1,
      lineCount_noLineFeed h2]
  | some msg =>
    simp only [renderFailure, lineCount_append, e1, e2, e5, lineCount_noLineFeed h1,
      lineCount_noLineFeed (h3 msg he)]

theorem sum_lineCount_render (rs : List FetchResult) (h : ∀ r ∈ rs, r.singleLine) :
    ((rs.map render).map lineCount).sum = rs.length := by
  induction rs with
  | nil => rfl
  | cons r rs ih =>
    have h1 := lineCount_render (h r (by simp))
    have h2 := ih (fun x hx => h x (by simp [hx]))
    simp only [List.map_cons, List.sum_cons, List.length_cons, h1, h2]
    omega

theorem renderFailure_ne_renderSuccess (a b c d : String) :
    renderFailure a b ≠ renderSuccess c d := by
  intro h
  have h1 := congrArg String.data h
  simp only [renderFailure, renderSuccess, String.data_append] at h1
  simp only [List.append_assoc, List.cons_append, List.cons.injEq] at h1
  exact absurd h1.1 (by decide)

theorem toList_append_lf (x : String) : (x ++ "\n").toList.getLast? = some '\n' := by
  have h : (x ++ "\n").toList = x.toList ++ ['\n'] := by
    simp [String.toList, String.data_append]
  rw [h]
  simp

/-- C7, negated as stated: a payload that spans two lines makes the report
of one outcome five lines long, not `1 + 3`. -/
theorem report_lines_counterexample :
    ¬ (∀ (fs : List DataFetcher) (env : Nat → Draws) (s : State),
        Reachable fs env s → s.main = .exit →
        lineCount (String.join s.out) = s.drained.length + 3) := by
  intro hall
  have h := hall [twoLineFetcher] failingDraws (runOf [twoLineFetcher] failingDraws (seqSchedule 1))
    (reachable_runOf (by decide)) (by decide)
  revert h
  decide

/-- C7, amended: when `main` returns it has made exactly `N + 3` writes for
the `N` outcomes received, each ending with a line feed: the start marker, the
completion marker, one write per outcome in the order received, the end marker.
The write for an outcome is the failure rendering exactly when its error is
present and the success rendering otherwise, and the two renderings always
differ. When no source name, payload or error message holds a line feed, the
output is exactly `N + 3` lines. -/
theorem report_writes_in_order (fs : List DataFetcher) (env : Nat → Draws) (s : State)
    (h : Reachable fs env s) (hm : s.main = .exit) :
    s.out.length = s.drained.length + 3
    ∧ s.out[0]? = some startMarker
    ∧ s.out[1]? = some doneMarker
    ∧ (∀ i, i < s.drained.length → s.out[i + 2]? = s.drained[i]?.map render)
    ∧ s.out[s.drained.length + 2]? = some endMarker
    ∧ (∀ w ∈ s.out, w.toList.getLast? = some '\n')
    ∧ (∀ r : FetchResult,
        (r.Error ≠ none ↔ ∃ msg, r.Error = some msg ∧ render r = renderFailure r.Source msg)
        ∧ (r.Error = none ↔ render r = renderSuccess r.Source r.Data))
    ∧ (∀ a b c d, renderFailure a b ≠ renderSuccess c d)
    ∧ ((∀ r ∈ s.drained, r.singleLine) →
        lineCount (String.join s.out) = s.drained.length + 3) := by
  have hI := reachable_inv h
  have ho := exit_out hI hm
  have hrender : ∀ r : FetchResult,
      (r.Error ≠ none ↔ ∃ msg, r.Error = some msg ∧ render r = renderFailure r.Source msg)
      ∧ (r.Error = none ↔ render r = renderSuccess r.Source r.Data) := by
    intro r
    cases he : r.Error with
    | none =>
      simp [render, he]
    | some msg =>
      simp only [ne_eq, reduceCtorEq, not_false_eq_true, Option.some.injEq, true_iff, false_iff]
      refine ⟨⟨msg, rfl, by simp [render, he]⟩, ?_⟩
      simp only [render, he]
      exact renderFailure_ne_renderSuccess _ _ _ _
  have hlast : ∀ w ∈ consoleWrites s.drained, w.toList.getLast? = some '\n' := by
    intro w hw
    simp only [consoleWrites, List.cons_append, List.nil_append, List.mem_cons, List.mem_append,
      List.mem_map, List.mem_singleton, List.not_mem_nil, or_false] at hw
    rcases hw with rfl | rfl | ⟨r, -, rfl⟩ | rfl
    · decide
    · decide
    · unfold render
      cases r.Error with
      | none => exact toList_append_lf _
      | some msg => exact toList_append_lf _
    · decide
  rw [ho]
  refine ⟨?_, ?_, ?_, ?_, ?_, hlast, hrender, renderFailure_ne_renderSuccess, ?_⟩
  · simp [consoleWrites]
  · simp [consoleWrites]
  · simp [consoleWrites]
  · intro i hi
    simp [consoleWrites, List.getElem?_append_left, hi]
  · simp [consoleWrites, List.getElem?_append_right]
  · intro hsl
    have e1 : lineCount startMarker = 1 := by decide
    have e2 : lineCount doneMarker = 1 := by decide
    have e3 : lineCount endMarker = 1 := by decide
    rw [lineCount_join]
    simp only [consoleWrites, List.cons_append, List.nil_append, List.map_cons, List.map_append,
      List.map_nil, List.sum_cons, List.sum_append, List.sum_nil, e1, e2, e3,
      sum_lineCount_render s.drained hsl]
    omega

/-- Witness of C7: the three fetchers of `main`, run to the end. -/
theorem report_writes_in_order_witness :
    Reachable fetchers failingDraws (runOf fetchers failingDraws (seqSchedule 3))
    ∧ (runOf fetchers failingDraws (seqSchedule 3)).main = .exit
    ∧ (runOf fetchers failingDraws (seqSchedule 3)).out.length = 3 + 3 :=
  ⟨reachable_runOf (by decide), by decide,
    (report_writes_in_order fetchers failingDraws (runOf fetchers failingDraws (seqSchedule 3))
      (reachable_runOf (by decide)) (by decide)).1⟩

/-! ## The payload of a failed fetch -/

theorem sent_is_outcome {fs : List DataFetcher} {env : Nat → Draws} {s : State}
    (hI : Inv fs env s) {r : FetchResult} (hr : r ∈ s.drained ++ s.ch.buf) :
    ∃ (i : Nat) (f : DataFetcher), fs[i]? = some f
      ∧ r = ⟨f.GetSourceName, (f.Fetch (env i)).data, (f.Fetch (env i)).err⟩ := by
  have h1 : r ∈ sentOf fs env s.units := hI.perm.mem_iff.mp hr
  unfold sentOf at h1
  rw [List.mem_filterMap] at h1
  obtain ⟨u, -, hu⟩ := h1
  split at hu
  · unfold outcome at hu
    cases hf : fs[u.src]? with
    | none => simp [hf] at hu
    | some f =>
      simp only [hf, Option.some.injEq] at hu
      exact ⟨u.src, f, hf, hu.symm⟩
  · simp at hu

/-- C8, negated as stated: a source outside the repository may return a
payload together with an error, and its outcome then carries both. -/
theorem payload_with_error_counterexample :
    ¬ (∀ (fs : List DataFetcher) (env : Nat → Draws) (s : State),
        Reachable fs env s → ∀ r ∈ s.drained ++ s.ch.buf, r.Error ≠ none → r.Data = "") := by
  intro hall
  have h := hall [partialFetcher] failingDraws
    (runOf [partialFetcher] failingDraws (seqSchedule 1)) (reachable_runOf (by decide))
    ⟨"Partial Service", "partial", some "boom"⟩ (by decide) (by decide)
  revert h
  decide

/-- C8, amended: every outcome a goroutine has produced carries the name of
its source and exactly the payload and the error that the source's fetch
returned; when all sources are among the three of the repository (user,
product, order), the payload is empty whenever the error is present. -/
theorem outcome_payload_empty_on_error (fs : List DataFetcher) (env : Nat → Draws) (s : State)
    (h : Reachable fs env s) :
    (∀ r ∈ s.drained ++ s.ch.buf, ∃ (i : Nat) (f : DataFetcher), fs[i]? = some f
      ∧ r = ⟨f.GetSourceName, (f.Fetch (env i)).data, (f.Fetch (env i)).err⟩)
    ∧ ((∀ f ∈ fs, f = UserFetcher ∨ f = ProductFetcher ∨ f = OrderFetcher) →
        ∀ r ∈ s.drained ++ s.ch.buf, r.Error ≠ none → r.Data = "") := by
  have hI := reachable_inv h
  refine ⟨fun r hr => sent_is_outcome hI hr, ?_⟩
  intro hrepo r hr herr
  obtain ⟨i, f, hf, rfl⟩ := sent_is_outcome hI hr
  simp only at herr ⊢
  rcases hrepo f (List.getElem?_mem hf) with rfl | rfl | rfl
  · simp [UserFetcher, UserFetcher.Fetch] at herr
  · simp only [ProductFetcher, ProductFetcher.Fetch] at herr ⊢
    split at herr
    · rename_i hlt
      simp [hlt]
    · simp at herr
  · simp [OrderFetcher, OrderFetcher.Fetch] at herr

/-- Witness of C8: the three fetchers of `main` with the product fetcher
failing, run to the end. -/
theorem outcome_payload_empty_on_error_witness :
    Reachable fetchers failingDraws (runOf fetchers failingDraws (seqSchedule 3))
    ∧ (∀ f ∈ fetchers, f = UserFetcher ∨ f = ProductFetcher ∨ f = OrderFetcher)
    ∧ ∀ r ∈ (runOf fetchers failingDraws (seqSchedule 3)).drained
          ++ (runOf fetchers failingDraws (seqSchedule 3)).ch.buf,
        r.Error ≠ none → r.Data = "" :=
  ⟨reachable_runOf (by decide), by simp [fetchers],
    (outcome_payload_empty_on_error fetchers failingDraws
      (runOf fetchers failingDraws (seqSchedule 3)) (reachable_runOf (by decide))).2
      (by simp [fetchers])⟩

end ConcurrentFetch
